import Mathlib

/-!
Shallow embedding of cargo-tidy (src/main.rs): a tool that extracts crate
names from `use` statements and from compiler diagnostic text, filters them
against a standard-library allowlist, and drives installation attempts.

Strings are modelled as `List Char`.  Each regex used by the source has the
shape "literal prefix, one capture class repeated greedily, literal suffix",
where the first character of the suffix is always excluded from the capture
class; for such patterns greedy matching without backtracking coincides with
the regex engine's leftmost-first semantics.  `captures_iter`'s
non-overlapping scan is modelled by restarting after the end of each match.
Scanning functions take a fuel argument (instantiated with the text length)
so that they are structurally recursive and compute by kernel reduction;
every scanning step consumes at least one character, so the text length is
always sufficient fuel.
-/

/-- The backtick character (code point 96). -/
def btick : Char := '\u0060'

/-- Strip a literal prefix from a character list; `some` of the remainder
exactly when the prefix matches. -/
def stripPfx : List Char → List Char → Option (List Char)
  | [], s => some s
  | _ :: _, [] => none
  | p :: ps, c :: cs => if p = c then stripPfx ps cs else none

/-- Capture class of rules 1, 2, 4, 5, 6: any character except a backtick. -/
def clsNB (c : Char) : Bool := c != btick

/-- Capture class of rule 3 and of the import-suggestion rule: any character
except a backtick or a colon. -/
def clsNBC (c : Char) : Bool := c != btick && c != ':'

/-- Capture class of rule 7: any character except a semicolon or a backtick. -/
def clsNSB (c : Char) : Bool := c != ';' && c != btick

/-- A pattern rule: literal prefix, capture class, literal suffix.  Embeds a
regex of the form `pre([cls]+)suf`. -/
structure PatRule where
  pre : List Char
  cls : Char → Bool
  suf : List Char

/-- Try to match a rule at the start of `s`: the literal prefix, then a
non-empty greedy run of capture-class characters, then the literal suffix.
Returns the capture and the remainder after the whole match.  Greedy matching
needs no backtracking here because each rule's suffix starts with a character
excluded from its capture class. -/
def tryMatchAt (r : PatRule) (s : List Char) : Option (List Char × List Char) :=
  match stripPfx r.pre s with
  | none => none
  | some s1 =>
    if (s1.takeWhile r.cls).isEmpty then none
    else
      match stripPfx r.suf (s1.dropWhile r.cls) with
      | none => none
      | some s2 => some (s1.takeWhile r.cls, s2)

/-- Non-overlapping scan of one rule over the text (models
`Regex::captures_iter`): find the leftmost match, record its capture,
continue after the match end.  Structurally recursive on fuel. -/
def scanP (r : PatRule) : Nat → List Char → List (List Char)
  | 0, _ => []
  | _ + 1, [] => []
  | n + 1, c :: t =>
    match tryMatchAt r (c :: t) with
    | some (cap, rest) => cap :: scanP r n rest
    | none => scanP r n t

/-- All captures of one rule over a text, in match order. -/
def findCaptures (r : PatRule) (s : List Char) : List (List Char) :=
  scanP r s.length s

/-- src/main.rs:149, regex "use of undeclared crate or module X(backticks)". -/
def rule1 : PatRule :=
  ⟨String.toList "use of undeclared crate or module `", clsNB, String.toList "`"⟩

/-- src/main.rs:150, the "failed to resolve: " prefixed variant of rule 1. -/
def rule2 : PatRule :=
  ⟨String.toList "failed to resolve: use of undeclared crate or module `",
   clsNB, String.toList "`"⟩

/-- src/main.rs:151, regex "unresolved import" with a capture class that
excludes the path separator colon. -/
def rule3 : PatRule :=
  ⟨String.toList "unresolved import `", clsNBC, String.toList "`"⟩

/-- src/main.rs:152, regex "no external crate". -/
def rule4 : PatRule :=
  ⟨String.toList "no external crate `", clsNB, String.toList "`"⟩

/-- src/main.rs:153, regex "extern crate ... not found". -/
def rule5 : PatRule :=
  ⟨String.toList "extern crate `", clsNB, String.toList "` not found"⟩

/-- src/main.rs:154, regex "maybe a missing crate ...?". -/
def rule6 : PatRule :=
  ⟨String.toList "maybe a missing crate `", clsNB, String.toList "`?"⟩

/-- src/main.rs:155, regex "consider adding (backtick)extern crate ...;". -/
def rule7 : PatRule :=
  ⟨String.toList "consider adding `extern crate ", clsNSB, String.toList ";`"⟩

/-- The seven patterns of src/main.rs:148-156, in source order. -/
def patterns : List PatRule :=
  [rule1, rule2, rule3, rule4, rule5, rule6, rule7]

/-- Literal prefix of the import-suggestion regex, src/main.rs:169. -/
def pre8 : List Char := String.toList "help: consider importing this"

/-- The tail of the import-suggestion regex after the lazy dot-star: a
backtick, a capture of non-backtick non-colon characters, then "::". -/
def tailRule8 : PatRule := ⟨[btick], clsNBC, String.toList "::"⟩

/-- The lazy ".*?" of the import-suggestion regex: find the earliest
position, not past a newline (the regex dot does not match newlines), where
the tail pattern matches. -/
def scanLazy : List Char → Option (List Char × List Char)
  | [] => none
  | c :: t =>
    match tryMatchAt tailRule8 (c :: t) with
    | some res => some res
    | none => if c = '\n' then none else scanLazy t

/-- Try to match the import-suggestion regex (src/main.rs:169) at the start
of `s`: the literal prefix, the lazy gap, then the tail. -/
def tryMatch8 (s : List Char) : Option (List Char × List Char) :=
  match stripPfx pre8 s with
  | none => none
  | some s1 => scanLazy s1

/-- Non-overlapping scan of the import-suggestion regex over the text. -/
def scan8F : Nat → List Char → List (List Char)
  | 0, _ => []
  | _ + 1, [] => []
  | n + 1, c :: t =>
    match tryMatch8 (c :: t) with
    | some (cap, rest) => cap :: scan8F n rest
    | none => scan8F n t

/-- All captures of the import-suggestion regex over a text. -/
def findCaptures8 (s : List Char) : List (List Char) :=
  scan8F s.length s

/-- The fixed allowlist of src/main.rs:185-242 (is_std_module's vec). -/
def std_modules : List String :=
  ["std", "core", "alloc", "proc_macro", "test", "collections", "env", "fs",
   "io", "net", "path", "process", "sync", "thread", "time", "fmt", "mem",
   "ptr", "slice", "str", "vec", "hash", "cmp", "ops", "iter", "option",
   "result", "clone", "convert", "default", "drop", "marker", "ascii",
   "char", "f32", "f64", "i8", "i16", "i32", "i64", "i128", "isize", "u8",
   "u16", "u32", "u64", "u128", "usize", "bool", "never", "array", "tuple",
   "unit", "self", "super", "crate"]

/-- src/main.rs:184-245: membership in the fixed allowlist. -/
def is_std_module (name : String) : Bool := std_modules.contains name

/-- Whether a character list contains the two-character substring "::"
(models Rust's `name.contains("::")`, src/main.rs:162). -/
def hasSep : List Char → Bool
  | a :: b :: t => (a == ':' && b == ':') || hasSep (b :: t)
  | _ => false

/-- Strict lexicographic order on character lists by code point.  This is
the order in which Rust's `Vec::<String>::sort` arranges the results:
UTF-8 byte order coincides with code-point order. -/
def lexLt : List Char → List Char → Bool
  | [], [] => false
  | [], _ :: _ => true
  | _ :: _, [] => false
  | a :: as, b :: bs => if a = b then lexLt as bs else decide (a < b)

/-- Strict lexicographic order on strings. -/
def strLt (x y : String) : Bool := lexLt x.toList y.toList

/-- Insert a string into a sorted duplicate-free list, keeping it sorted and
duplicate-free. -/
def sortedInsert (x : String) : List String → List String
  | [] => [x]
  | y :: t =>
    if x = y then y :: t
    else if strLt x y then x :: y :: t
    else y :: sortedInsert x t

/-- The sorted list of the distinct elements of `l`: models accumulating
into a `HashSet<String>` followed by `Vec::sort` (src/main.rs:146,179-180).
The result is order-insensitive, as a hash set is. -/
def sortDedup (l : List String) : List String := l.foldr sortedInsert []

/-- src/main.rs:145-182 (extract_missing_crates): run the seven plain rules,
keep captures that are neither allowlisted nor contain "::"; run the
import-suggestion rule, keep captures that are not allowlisted; dedup and
sort. -/
def extract_missing_crates (error_output : List Char) : List String :=
  sortDedup
    ((((patterns.map (fun r => findCaptures r error_output)).flatten).filter
        (fun n => !is_std_module (String.mk n) && !hasSep n)
      ++ (findCaptures8 error_output).filter
        (fun n => !is_std_module (String.mk n))).map String.mk)

/-- The variant of the matcher without the second pattern ("failed to
resolve: ..."), used to examine whether that pattern is redundant. -/
def patterns_no2 : List PatRule :=
  [rule1, rule3, rule4, rule5, rule6, rule7]

/-- extract_missing_crates run with `patterns_no2` instead of `patterns`;
everything else is unchanged. -/
def extract_missing_crates_no2 (error_output : List Char) : List String :=
  sortDedup
    ((((patterns_no2.map (fun r => findCaptures r error_output)).flatten).filter
        (fun n => !is_std_module (String.mk n) && !hasSep n)
      ++ (findCaptures8 error_output).filter
        (fun n => !is_std_module (String.mk n))).map String.mk)

/-- The whitespace class of the use-statement regex (src/main.rs:91).  The
ASCII portion of the regex class is modelled; all inputs considered in this
development are ASCII. -/
def isWs (c : Char) : Bool :=
  c = ' ' || c = '\t' || c = '\n' || c = '\r' || c = '\x0B' || c = '\x0C'

/-- First character of the capture of the use-statement regex: a letter or
an underscore. -/
def isIdentStart (c : Char) : Bool :=
  ('a' ≤ c && c ≤ 'z') || ('A' ≤ c && c ≤ 'Z') || c = '_'

/-- Later characters of the capture: a letter, a digit, or an underscore. -/
def isIdentCont (c : Char) : Bool :=
  isIdentStart c || ('0' ≤ c && c ≤ '9')

/-- The literal "use" keyword. -/
def useKw : List Char := String.toList "use"

/-- Try to match the body of the use-statement regex (src/main.rs:91,
without the line anchor) at the start of `s`: the literal "use", at least
one whitespace character (greedily), then the capture: an identifier-start
character followed by a greedy run of identifier characters.  No
backtracking is needed: whitespace characters are never identifier-start
characters. -/
def useMatchAt (s : List Char) : Option (List Char × List Char) :=
  match stripPfx useKw s with
  | none => none
  | some s1 =>
    if (s1.takeWhile isWs).isEmpty then none
    else
      match s1.dropWhile isWs with
      | [] => none
      | c :: t =>
        if isIdentStart c then some (c :: t.takeWhile isIdentCont, t.dropWhile isIdentCont)
        else none

/-- Multiline scan of the use-statement regex: the boolean records whether
the current position is a line start (start of text or just after a
newline), which is where the `(?m)^` anchor allows a match.  A match never
ends in a newline character, so scanning resumes with the flag cleared. -/
def scanUsesF : Nat → Bool → List Char → List (List Char)
  | 0, _, _ => []
  | _ + 1, _, [] => []
  | n + 1, b, c :: t =>
    if b then
      match useMatchAt (c :: t) with
      | some (cap, rest) => cap :: scanUsesF n false rest
      | none => scanUsesF n (c == '\n') t
    else scanUsesF n (c == '\n') t

/-- All captures of the use-statement regex over a source text. -/
def scanUses (content : List Char) : List (List Char) :=
  scanUsesF content.length true content

/-- src/main.rs:84-107 (extract_crates_from_source), the pure part after the
file has been read: scan the use statements, drop allowlisted names and the
three self-referential keywords, dedup and sort. -/
def extract_crates_from_source (content : List Char) : List String :=
  sortDedup
    (((scanUses content).filter
        (fun n => !is_std_module (String.mk n) && String.mk n != "self"
          && String.mk n != "super" && String.mk n != "crate")).map String.mk)

/-- The captured result of a subprocess that did launch: its exit status
(success flag) and its two output streams (`std::process::Output`, decoded
with from_utf8_lossy). -/
structure ProcOutput where
  success : Bool
  stdout : List Char
  stderr : List Char

/-- The combined diagnostic text of src/main.rs:115-118: the error stream,
a newline, then the standard output stream. -/
def combined_output (o : ProcOutput) : List Char :=
  o.stderr ++ '\n' :: o.stdout

/-- The primary diagnostic producer (src/main.rs:111-118): run
"cargo check --message-format=plain"; `none` models a spawn failure (the
only error source, propagated by `?`); on a launch the combined text is
produced whatever the exit status was. -/
def run_dependency_check (spawn : Option ProcOutput) : Except Unit (List Char) :=
  match spawn with
  | none => Except.error ()
  | some o => Except.ok (combined_output o)

/-- src/main.rs:109-143 (analyze_missing_crates): feed the combined text of
the primary producer to the matcher.  Printing is omitted; the returned
value is the list handed back to the driver. -/
def analyze_missing_crates (spawn : Option ProcOutput) : Except Unit (List String) :=
  match run_dependency_check spawn with
  | Except.error e => Except.error e
  | Except.ok txt => Except.ok (extract_missing_crates txt)

/-- src/main.rs:247-265 (analyze_missing_crates_rustc): run rustc directly;
`none` models a spawn failure.  Only the error stream is fed to the
matcher. -/
def analyze_missing_crates_rustc (spawn : Option ProcOutput) : Except Unit (List String) :=
  match spawn with
  | none => Except.error ()
  | some o => Except.ok (extract_missing_crates o.stderr)

/-- The environment a run of the tool observes: the result of reading
src/main.rs (`none` = unreadable), and the spawn results of the two
diagnostic subprocesses (`none` = failed to launch). -/
structure Env where
  source : Option (List Char)
  cargo_check : Option ProcOutput
  rustc : Option ProcOutput

/-- The externally visible actions of the remediation driver that the
claims are about: invoking "cargo add NAME" for a name, and invoking the
rustc fallback producer. -/
inductive DriverAction where
  | install : String → DriverAction
  | runRustc : DriverAction
deriving DecidableEq

/-- src/main.rs:64-82 (install_crates): one "cargo add" invocation per
name, in order. -/
def install_crates (crates : List String) : List DriverAction :=
  crates.map DriverAction.install

/-- The actions of the first stage of find_missing_crates
(src/main.rs:20-37): static extraction; on a read failure the error is
printed and nothing is installed; on an empty result nothing is
installed. -/
def stage1_actions (src : Option (List Char)) : List DriverAction :=
  match src with
  | none => []
  | some content =>
    if (extract_crates_from_source content).isEmpty then []
    else install_crates (extract_crates_from_source content)

/-- The actions of the second stage (src/main.rs:39-61): on a successful
primary analysis its names are installed (none if the list is empty); if
the primary producer failed to launch, the rustc fallback runs and nothing
is installed in that branch. -/
def stage2_actions (cc : Option ProcOutput) : List DriverAction :=
  match cc with
  | some o =>
    if (extract_missing_crates (combined_output o)).isEmpty then []
    else install_crates (extract_missing_crates (combined_output o))
  | none => [DriverAction.runRustc]

/-- src/main.rs:17-62 (find_missing_crates), as the ordered trace of driver
actions: stage 1 then stage 2. -/
def find_missing_crates (env : Env) : List DriverAction :=
  stage1_actions env.source ++ stage2_actions env.cargo_check

/-- How the process ends: a normal return from main (exit status 0) or a
panic (Rust exits with status 101). -/
inductive ExitStatus where
  | ok : ExitStatus
  | panicked : ExitStatus
deriving DecidableEq

/-- The numeric exit status of the process. -/
def exit_code : ExitStatus → Nat
  | ExitStatus.ok => 0
  | ExitStatus.panicked => 101

/-- src/main.rs:267-275 (main) together with src/main.rs:12-15 (getdir):
`curdir` is the result of env::current_dir().  When it fails, getdir's
`expect` panics before find_missing_crates runs; otherwise the banner is
printed (identically on both branches of the OS test) and the driver runs
to completion, returning normally. -/
def main_run (os : String) (curdir : Option String) (env : Env) :
    ExitStatus × List DriverAction :=
  match curdir with
  | none => (ExitStatus.panicked, [])
  | some _ =>
    if os = "windows" then (ExitStatus.ok, find_missing_crates env)
    else (ExitStatus.ok, find_missing_crates env)

/-- Identifier syntax as the spec's data model states it: non-empty, only
letters, digits and underscores, and not starting with a digit. -/
def isIdentName (n : String) : Bool :=
  match n.toList with
  | [] => false
  | c :: t => isIdentStart c && t.all isIdentCont

/-- Every element of a `takeWhile` run satisfies the predicate. -/
theorem mem_of_takeWhile {α : Type} {p : α → Bool} :
    ∀ (l : List α) (a : α), a ∈ l.takeWhile p → p a = true := by
  intro l
  induction l with
  | nil => intro a h; simp [List.takeWhile] at h
  | cons x t ih =>
    intro a h
    cases hx : p x with
    | false => simp [List.takeWhile_cons, hx] at h
    | true =>
      simp only [List.takeWhile_cons, hx, if_true] at h
      rcases List.mem_cons.mp h with rfl | h2
      · exact hx
      · exact ih a h2

/-- A successful prefix strip drops exactly the prefix length. -/
theorem stripPfx_drop : ∀ (p s r : List Char), stripPfx p s = some r → r = s.drop p.length := by
  intro p
  induction p with
  | nil =>
    intro s r h
    simp only [stripPfx, Option.some.injEq] at h
    simp [h]
  | cons x ps ih =>
    intro s r h
    cases s with
    | nil => simp [stripPfx] at h
    | cons c cs =>
      by_cases hxc : x = c
      · simp only [stripPfx, if_pos hxc] at h
        simpa using ih cs r h
      · simp [stripPfx, hxc] at h

/-- Stripping a concatenated prefix strips its parts in order. -/
theorem stripPfx_append : ∀ (p q s : List Char),
    stripPfx (p ++ q) s = (stripPfx p s).bind (stripPfx q) := by
  intro p
  induction p with
  | nil => intro q s; simp [stripPfx]
  | cons x ps ih =>
    intro q s
    cases s with
    | nil => simp [stripPfx]
    | cons c cs =>
      by_cases hxc : x = c
      · simp [stripPfx, hxc, ih]
      · simp [stripPfx, hxc]

/-- Every character of a rule capture lies in the rule's capture class. -/
theorem tryMatchAt_cap {r : PatRule} {s cap rest : List Char}
    (h : tryMatchAt r s = some (cap, rest)) : ∀ c ∈ cap, r.cls c = true := by
  unfold tryMatchAt at h
  split at h
  · exact absurd h (by simp)
  · split at h
    · exact absurd h (by simp)
    · split at h
      · exact absurd h (by simp)
      · rw [Option.some.injEq, Prod.mk.injEq] at h
        intro c hc
        rw [← h.1] at hc
        exact mem_of_takeWhile _ c hc

/-- Every character of every capture of a rule scan lies in the rule's
capture class. -/
theorem scanP_cls (r : PatRule) :
    ∀ (n : Nat) (s : List Char), ∀ cap ∈ scanP r n s, ∀ c ∈ cap, r.cls c = true := by
  intro n
  induction n with
  | zero => intro s cap h; simp [scanP] at h
  | succ n ih =>
    intro s cap hcap
    cases s with
    | nil => simp [scanP] at hcap
    | cons a t =>
      cases hm : tryMatchAt r (a :: t) with
      | none =>
        rw [scanP, hm] at hcap
        exact ih t cap hcap
      | some pr =>
        obtain ⟨cp, rest⟩ := pr
        rw [scanP, hm] at hcap
        rcases List.mem_cons.mp hcap with rfl | h2
        · exact tryMatchAt_cap hm
        · exact ih rest cap h2

/-- Every character of a lazy-tail capture avoids backticks and colons. -/
theorem scanLazy_cap : ∀ (s cap rest : List Char),
    scanLazy s = some (cap, rest) → ∀ c ∈ cap, clsNBC c = true := by
  intro s
  induction s with
  | nil => intro cap rest h; simp [scanLazy] at h
  | cons a t ih =>
    intro cap rest h
    rw [scanLazy] at h
    split at h
    · rename_i res heq
      rw [Option.some.injEq] at h
      subst h
      exact tryMatchAt_cap heq
    · split at h
      · exact absurd h (by simp)
      · exact ih cap rest h

/-- Every character of an import-suggestion capture avoids backticks and
colons. -/
theorem tryMatch8_cap {s cap rest : List Char}
    (h : tryMatch8 s = some (cap, rest)) : ∀ c ∈ cap, clsNBC c = true := by
  unfold tryMatch8 at h
  cases h1 : stripPfx pre8 s with
  | none => rw [h1] at h; exact absurd h (by simp)
  | some s1 =>
    rw [h1] at h
    exact scanLazy_cap s1 cap rest h

/-- Every character of every capture of the import-suggestion scan avoids
backticks and colons. -/
theorem scan8F_cls :
    ∀ (n : Nat) (s : List Char), ∀ cap ∈ scan8F n s, ∀ c ∈ cap, clsNBC c = true := by
  intro n
  induction n with
  | zero => intro s cap h; simp [scan8F] at h
  | succ n ih =>
    intro s cap hcap
    cases s with
    | nil => simp [scan8F] at hcap
    | cons a t =>
      cases hm : tryMatch8 (a :: t) with
      | none =>
        rw [scan8F, hm] at hcap
        exact ih t cap hcap
      | some pr =>
        obtain ⟨cp, rest⟩ := pr
        rw [scan8F, hm] at hcap
        rcases List.mem_cons.mp hcap with rfl | h2
        · exact tryMatch8_cap hm
        · exact ih rest cap h2

/-- A character list with no colon at all contains no "::". -/
theorem hasSep_false : ∀ (l : List Char), (∀ c ∈ l, c ≠ ':') → hasSep l = false := by
  intro l
  induction l with
  | nil => intro _; rfl
  | cons a t ih =>
    intro h
    cases t with
    | nil => rfl
    | cons b t2 =>
      have ha : (a == ':') = false := by
        have := h a (List.mem_cons_self a _)
        simp [this]
      rw [show hasSep (a :: b :: t2) = ((a == ':' && b == ':') || hasSep (b :: t2)) from rfl, ha]
      simp only [Bool.false_and, Bool.false_or]
      exact ih (fun c hc => h c (List.mem_cons_of_mem a hc))

/-- The lexicographic order is irreflexive. -/
theorem lexLt_irrefl : ∀ l : List Char, lexLt l l = false := by
  intro l
  induction l with
  | nil => rfl
  | cons a as ih => simp [lexLt, ih]

/-- The lexicographic order is total on distinct lists. -/
theorem lexLt_total : ∀ l1 l2 : List Char, l1 ≠ l2 → lexLt l1 l2 = false → lexLt l2 l1 = true := by
  intro l1
  induction l1 with
  | nil =>
    intro l2 hne hlt
    cases l2 with
    | nil => exact absurd rfl hne
    | cons b bs => simp [lexLt] at hlt
  | cons a as ih =>
    intro l2 hne hlt
    cases l2 with
    | nil => rfl
    | cons b bs =>
      by_cases hab : a = b
      · subst hab
        simp only [lexLt, if_pos rfl] at hlt ⊢
        exact ih bs (fun h => hne (by rw [h])) hlt
      · have hba : b ≠ a := fun h => hab h.symm
        simp only [lexLt, if_neg hab, if_neg hba, decide_eq_false_iff_not] at hlt
        simp only [lexLt, if_neg hba, decide_eq_true_eq]
        rcases lt_or_gt_of_ne hba with h | h
        · exact h
        · exact absurd h hlt

/-- The lexicographic order is transitive. -/
theorem lexLt_trans : ∀ l1 l2 l3 : List Char,
    lexLt l1 l2 = true → lexLt l2 l3 = true → lexLt l1 l3 = true := by
  intro l1
  induction l1 with
  | nil =>
    intro l2 l3 h12 h23
    cases l2 with
    | nil => simp [lexLt] at h12
    | cons b bs =>
      cases l3 with
      | nil => simp [lexLt] at h23
      | cons c cs => rfl
  | cons a as ih =>
    intro l2 l3 h12 h23
    cases l2 with
    | nil => simp [lexLt] at h12
    | cons b bs =>
      cases l3 with
      | nil => simp [lexLt] at h23
      | cons c cs =>
        by_cases hab : a = b
        · subst hab
          simp only [lexLt, if_pos rfl] at h12
          by_cases hbc : a = c
          · subst hbc
            simp only [lexLt, if_pos rfl] at h23 ⊢
            exact ih bs cs h12 h23
          · simp only [lexLt, if_neg hbc] at h23 ⊢
            exact h23
        · simp only [lexLt, if_neg hab, decide_eq_true_eq] at h12
          by_cases hbc : b = c
          · subst hbc
            simp only [lexLt, if_neg hab, decide_eq_true_eq]
            exact h12
          · simp only [lexLt, if_neg hbc, decide_eq_true_eq] at h23
            have hac : a ≠ c := fun h => by
              subst h
              exact absurd (lt_trans h12 h23) (lt_irrefl a)
            simp only [lexLt, if_neg hac, decide_eq_true_eq]
            exact lt_trans h12 h23

/-- Strict string order implies inequality. -/
theorem strLt_ne {x y : String} (h : strLt x y = true) : x ≠ y := by
  intro he
  subst he
  rw [strLt, lexLt_irrefl] at h
  exact Bool.noConfusion h

/-- Distinct character data of distinct strings. -/
theorem toList_ne {x y : String} (h : x ≠ y) : x.toList ≠ y.toList := by
  intro hd
  exact h (String.ext hd)

/-- The strict string order is total on distinct strings. -/
theorem strLt_total {x y : String} (hne : x ≠ y) (h : strLt x y = false) : strLt y x = true :=
  lexLt_total x.toList y.toList (toList_ne hne) h

/-- The strict string order is transitive. -/
theorem strLt_trans {x y z : String} (h1 : strLt x y = true) (h2 : strLt y z = true) :
    strLt x z = true :=
  lexLt_trans x.toList y.toList z.toList h1 h2

/-- Membership after a sorted insertion. -/
theorem mem_sortedInsert (a x : String) : ∀ l, a ∈ sortedInsert x l ↔ (a = x ∨ a ∈ l) := by
  intro l
  induction l with
  | nil => simp [sortedInsert]
  | cons y t ih =>
    simp only [sortedInsert]
    split_ifs with h1 h2
    · subst h1
      simp only [List.mem_cons]
      tauto
    · simp only [List.mem_cons]
    · simp only [List.mem_cons, ih]
      tauto

/-- The head of a sorted insertion is the inserted element or the old head. -/
theorem head_sortedInsert (x : String) : ∀ (l : List String) (z : String),
    (sortedInsert x l).head? = some z → z = x ∨ l.head? = some z := by
  intro l z h
  cases l with
  | nil =>
    simp only [sortedInsert, List.head?_cons, Option.some.injEq] at h
    exact Or.inl h.symm
  | cons y t =>
    simp only [sortedInsert] at h
    split_ifs at h with h1 h2
    · exact Or.inr h
    · simp only [List.head?_cons, Option.some.injEq] at h
      exact Or.inl h.symm
    · simp only [List.head?_cons, Option.some.injEq] at h
      simp [h]

/-- Sorted insertion preserves strictly sorted chains. -/
theorem chain_sortedInsert (x : String) : ∀ l, List.Chain' (fun a b => strLt a b = true) l →
    List.Chain' (fun a b => strLt a b = true) (sortedInsert x l) := by
  intro l
  induction l with
  | nil => intro _; simp [sortedInsert]
  | cons y t ih =>
    intro h
    simp only [sortedInsert]
    split_ifs with h1 h2
    · exact h
    · exact List.Chain'.cons h2 h
    · have hxyf : strLt x y = false := by
        cases hxy : strLt x y
        · rfl
        · exact absurd hxy h2
      have hyx : strLt y x = true := strLt_total h1 hxyf
      rw [List.chain'_cons']
      refine ⟨?_, ih (List.chain'_cons'.mp h).2⟩
      intro z hz
      rcases head_sortedInsert x t z (Option.mem_def.mp hz) with rfl | hz2
      · exact hyx
      · exact (List.chain'_cons'.mp h).1 z (Option.mem_def.mpr hz2)

/-- Membership in the deduplicated sort equals membership in the input. -/
theorem mem_sortDedup (a : String) : ∀ l, a ∈ sortDedup l ↔ a ∈ l := by
  intro l
  induction l with
  | nil => simp [sortDedup]
  | cons x t ih =>
    show a ∈ sortedInsert x (sortDedup t) ↔ _
    rw [mem_sortedInsert]
    simp [ih, List.mem_cons]

/-- The deduplicated sort is strictly sorted. -/
theorem chain_sortDedup : ∀ l, List.Chain' (fun a b => strLt a b = true) (sortDedup l) := by
  intro l
  induction l with
  | nil => simp [sortDedup]
  | cons x t ih => exact chain_sortedInsert x _ ih

/-- The deduplicated sort has no duplicates. -/
theorem nodup_sortDedup (l : List String) : (sortDedup l).Nodup := by
  haveI : IsTrans String (fun a b => strLt a b = true) := ⟨fun _ _ _ => strLt_trans⟩
  exact (List.chain'_iff_pairwise.mp (chain_sortDedup l)).imp (fun h => strLt_ne h)

/-- The capture of a use-statement match is a non-empty identifier: an
identifier-start character followed by identifier characters. -/
theorem useMatchAt_cap {s cap rest : List Char} (h : useMatchAt s = some (cap, rest)) :
    ∃ c t, cap = c :: t ∧ isIdentStart c = true ∧ ∀ x ∈ t, isIdentCont x = true := by
  unfold useMatchAt at h
  split at h
  · exact absurd h (by simp)
  · split at h
    · exact absurd h (by simp)
    · split at h
      · exact absurd h (by simp)
      · rename_i c t heq
        split at h
        · rw [Option.some.injEq, Prod.mk.injEq] at h
          refine ⟨c, t.takeWhile isIdentCont, h.1.symm, by assumption, ?_⟩
          intro x hx
          exact mem_of_takeWhile t x hx
        · exact absurd h (by simp)

/-- Every capture of the multiline use-statement scan is a non-empty
identifier. -/
theorem scanUsesF_shape : ∀ (n : Nat) (b : Bool) (s : List Char), ∀ cap ∈ scanUsesF n b s,
    ∃ c t, cap = c :: t ∧ isIdentStart c = true ∧ ∀ x ∈ t, isIdentCont x = true := by
  intro n
  induction n with
  | zero => intro b s cap h; simp [scanUsesF] at h
  | succ n ih =>
    intro b s cap hcap
    cases s with
    | nil => simp [scanUsesF] at hcap
    | cons a t =>
      cases b with
      | false =>
        rw [scanUsesF, if_neg (by simp)] at hcap
        exact ih _ _ cap hcap
      | true =>
        rw [scanUsesF, if_pos rfl] at hcap
        cases hm : useMatchAt (a :: t) with
        | none =>
          rw [hm] at hcap
          exact ih _ _ cap hcap
        | some pr =>
          obtain ⟨cp, rest⟩ := pr
          rw [hm] at hcap
          rcases List.mem_cons.mp hcap with rfl | h2
          · exact useMatchAt_cap hm
          · exact ih _ _ cap h2

/-- Whether the text begins with the literal "use". -/
def usePfx (s : List Char) : Bool := (stripPfx useKw s).isSome

/-- A use-statement match requires the "use" keyword at this position. -/
theorem useMatchAt_none {s : List Char} (h : usePfx s = false) : useMatchAt s = none := by
  unfold useMatchAt
  cases h1 : stripPfx useKw s with
  | none => rfl
  | some s1 => rw [usePfx, h1] at h; simp at h

/-- The suffixes of a text that start right after a newline: together with
the text itself these are exactly the line-start positions of the multiline
anchor. -/
def nlSuffixes : List Char → List (List Char)
  | [] => []
  | c :: t => if c = '\n' then t :: nlSuffixes t else nlSuffixes t

/-- Newline suffixes are preserved by prepending a character. -/
theorem mem_nlSuffixes_cons {c : Char} {t u : List Char} (h : u ∈ nlSuffixes t) :
    u ∈ nlSuffixes (c :: t) := by
  by_cases hc : c = '\n'
  · simp only [nlSuffixes, if_pos hc]
    exact List.mem_cons_of_mem t h
  · simpa only [nlSuffixes, if_neg hc] using h

/-- If neither the text nor any line start after a newline begins with the
"use" keyword, the multiline scan finds nothing. -/
theorem scanUsesF_nil : ∀ (n : Nat) (b : Bool) (s : List Char),
    (b = true → usePfx s = false) → (∀ t ∈ nlSuffixes s, usePfx t = false) →
    scanUsesF n b s = [] := by
  intro n
  induction n with
  | zero => intro b s _ _; rfl
  | succ n ih =>
    intro b s h1 h2
    cases s with
    | nil => rfl
    | cons a t =>
      have hrec : scanUsesF n (a == '\n') t = [] := by
        apply ih
        · intro hb
          have ha : a = '\n' := by simpa using hb
          apply h2
          rw [ha]
          simp [nlSuffixes]
        · intro u hu
          exact h2 u (mem_nlSuffixes_cons hu)
      cases b with
      | false => simpa [scanUsesF] using hrec
      | true =>
        have hm : useMatchAt (a :: t) = none := useMatchAt_none (h1 rfl)
        rw [scanUsesF, if_pos rfl, hm]
        exact hrec

/-- install_crates traces contain only install actions. -/
theorem runRustc_not_mem_install (l : List String) :
    DriverAction.runRustc ∉ install_crates l := by
  intro h
  rw [install_crates, List.mem_map] at h
  obtain ⟨a, _, ha⟩ := h
  exact DriverAction.noConfusion ha

/-- An install action is traced exactly for the names in the list. -/
theorem install_mem_install_crates {n : String} {l : List String} :
    DriverAction.install n ∈ install_crates l ↔ n ∈ l := by
  rw [install_crates, List.mem_map]
  constructor
  · rintro ⟨a, ha, heq⟩
    injection heq with h
    subst h
    exact ha
  · intro h
    exact ⟨n, h, rfl⟩

/-- The first stage never invokes the rustc fallback. -/
theorem runRustc_not_stage1 (src : Option (List Char)) :
    DriverAction.runRustc ∉ stage1_actions src := by
  intro h
  cases src with
  | none => simp [stage1_actions] at h
  | some content =>
    rw [stage1_actions] at h
    split at h
    · simp at h
    · exact runRustc_not_mem_install _ h

/-- The second stage invokes the rustc fallback exactly when the primary
producer failed to launch. -/
theorem runRustc_mem_stage2_iff (cc : Option ProcOutput) :
    DriverAction.runRustc ∈ stage2_actions cc ↔ cc = none := by
  cases cc with
  | none => simp [stage2_actions]
  | some o =>
    rw [stage2_actions]
    constructor
    · intro h
      split at h
      · simp at h
      · exact absurd h (runRustc_not_mem_install _)
    · intro h
      exact Option.noConfusion h

/-- A name outside the allowlist is none of the three self-referential path
keywords, which the allowlist contains. -/
theorem ne_reserved_of_not_std {n : String} (h : is_std_module n = false) :
    n ≠ "self" ∧ n ≠ "super" ∧ n ≠ "crate" := by
  refine ⟨?_, ?_, ?_⟩ <;> rintro rfl <;> revert h <;> decide

/-- Claim C1: the "unresolved import" rule rejects a backtick-delimited
qualified path as a whole and accepts an unqualified name: the matcher
yields nothing on "unresolved import (backtick)bar::baz(backtick)" and
exactly ["bar"] on "unresolved import (backtick)bar(backtick)". -/
theorem claim_C1 :
    extract_missing_crates (String.toList "unresolved import `bar::baz`") = []
    ∧ extract_missing_crates (String.toList "unresolved import `bar`") = ["bar"] := by
  constructor <;> decide

/-- Claim C2: the import-suggestion rule takes the segment before the first
"::" of the backtick-delimited payload: the matcher yields exactly
["serde"] on "help: consider importing this struct:
(backtick)serde::Serialize(backtick)". -/
theorem claim_C2 :
    extract_missing_crates
      (String.toList "help: consider importing this struct: `serde::Serialize`")
    = ["serde"] := by
  decide

/-- Claim C3: every name in a candidate set is outside the allowlist, is
none of "self"/"super"/"crate", and (for matcher-derived candidates)
contains no "::"; this holds for every output of extract_missing_crates
and of extract_crates_from_source, on every input. -/
theorem claim_C3 :
    (∀ s n, n ∈ extract_missing_crates s →
      is_std_module n = false ∧ n ≠ "self" ∧ n ≠ "super" ∧ n ≠ "crate"
        ∧ hasSep n.toList = false)
    ∧ (∀ content n, n ∈ extract_crates_from_source content →
      is_std_module n = false ∧ n ≠ "self" ∧ n ≠ "super" ∧ n ≠ "crate") := by
  constructor
  · intro s n hn
    unfold extract_missing_crates at hn
    rw [mem_sortDedup] at hn
    simp only [List.mem_map, List.mem_append, List.mem_filter] at hn
    obtain ⟨cap, hcapor, rfl⟩ := hn
    have hmain : is_std_module (String.mk cap) = false ∧ hasSep cap = false := by
      rcases hcapor with ⟨hc, hf⟩ | ⟨hc, hf⟩
      · rw [Bool.and_eq_true, Bool.not_eq_true', Bool.not_eq_true'] at hf
        exact ⟨hf.1, hf.2⟩
      · rw [Bool.not_eq_true'] at hf
        refine ⟨hf, hasSep_false cap ?_⟩
        intro c hcmem hcolon
        have hcls := scan8F_cls s.length s cap hc c hcmem
        rw [clsNBC, Bool.and_eq_true] at hcls
        subst hcolon
        simp at hcls
    obtain ⟨h1, h2, h3⟩ := ne_reserved_of_not_std hmain.1
    exact ⟨hmain.1, h1, h2, h3, hmain.2⟩
  · intro content n hn
    unfold extract_crates_from_source at hn
    rw [mem_sortDedup] at hn
    simp only [List.mem_map, List.mem_filter] at hn
    obtain ⟨cap, ⟨hc, hf⟩, rfl⟩ := hn
    simp only [Bool.and_eq_true, Bool.not_eq_true', bne_iff_ne] at hf
    obtain ⟨⟨⟨hstd, hself⟩, hsuper⟩, hcrate⟩ := hf
    exact ⟨hstd, hself, hsuper, hcrate⟩

/-- Witness for claim C3: the invariant instantiated on needing the crate
serde in a "no external crate" diagnostic. -/
theorem claim_C3_witness :
    is_std_module "serde" = false ∧ "serde" ≠ "self" ∧ "serde" ≠ "super"
      ∧ "serde" ≠ "crate" ∧ hasSep (String.toList "serde") = false :=
  claim_C3.1 (String.toList "no external crate `serde`") "serde" (by decide)

/-- Counterexample to claim C4: the matcher returns "foo bar" — which
contains a space, hence is not identifier syntax — verbatim for the
diagnostic "use of undeclared crate or module (backtick)foo
bar(backtick)". -/
theorem claim_C4_cex :
    extract_missing_crates (String.toList "use of undeclared crate or module `foo bar`")
      = ["foo bar"]
    ∧ isIdentName "foo bar" = false := by
  constructor <;> decide

/-- Claim C4 (amended): every name produced by the static extraction stage
matches identifier syntax; the diagnostic matcher's outputs are not so
constrained (any non-backtick text between the delimiters passes its
filters). -/
theorem claim_C4 :
    ∀ content n, n ∈ extract_crates_from_source content → isIdentName n = true := by
  intro content n hn
  unfold extract_crates_from_source at hn
  rw [mem_sortDedup] at hn
  simp only [List.mem_map, List.mem_filter] at hn
  obtain ⟨cap, ⟨hc, _⟩, rfl⟩ := hn
  obtain ⟨c, t, hcap, h1, h2⟩ := scanUsesF_shape content.length true content cap hc
  subst hcap
  show (isIdentStart c && t.all isIdentCont) = true
  rw [Bool.and_eq_true]
  exact ⟨h1, List.all_eq_true.mpr h2⟩

/-- Witness for the amended claim C4: "regex", extracted from a use
statement, is identifier syntax. -/
theorem claim_C4_witness : isIdentName "regex" = true :=
  claim_C4 (String.toList "use regex::Regex;\n") "regex" (by decide)

/-- Claim C5: the matcher's output is strictly sorted and duplicate-free on
every input, the matcher is deterministic and idempotent (it is a pure
function of the text), and a text matched by two rules both capturing
"foo" yields ["foo"] exactly once. -/
theorem claim_C5 :
    (∀ s, List.Chain' (fun a b => strLt a b = true) (extract_missing_crates s)
      ∧ (extract_missing_crates s).Nodup
      ∧ extract_missing_crates s = extract_missing_crates s)
    ∧ extract_missing_crates
        (String.toList "use of undeclared crate or module `foo`\nno external crate `foo`")
      = ["foo"] := by
  constructor
  · intro s
    exact ⟨chain_sortDedup _, nodup_sortDedup _, rfl⟩
  · decide

/-- Claim C6: static extraction on "use regex::Regex;\nuse std::fs;\n"
yields exactly ["regex"] (the allowlisted std is filtered), and static
extraction of any text none of whose lines begins with the "use" keyword
yields the empty sequence. -/
theorem claim_C6 :
    extract_crates_from_source (String.toList "use regex::Regex;\nuse std::fs;\n") = ["regex"]
    ∧ ∀ content, (∀ t ∈ content :: nlSuffixes content, usePfx t = false) →
      extract_crates_from_source content = [] := by
  constructor
  · decide
  · intro content h
    unfold extract_crates_from_source scanUses
    rw [scanUsesF_nil content.length true content
      (fun _ => h content (List.mem_cons_self _ _))
      (fun t ht => h t (List.mem_cons_of_mem _ ht))]
    rfl

/-- Witness for claim C6: a text with no import line extracts nothing. -/
theorem claim_C6_witness : extract_crates_from_source (String.toList "let x = 5;") = [] :=
  claim_C6.2 (String.toList "let x = 5;") (by decide)

/-- Claim C7: the primary producer returns the error stream, a newline,
then the standard output stream, successfully and independently of the
exit status; it errors exactly when the subprocess failed to launch. -/
theorem claim_C7 :
    (∀ b so se, run_dependency_check (some ⟨b, so, se⟩) = Except.ok (se ++ '\n' :: so))
    ∧ (∀ spawn, run_dependency_check spawn = Except.error () ↔ spawn = none)
    ∧ (∀ b so se, analyze_missing_crates (some ⟨b, so, se⟩)
        = Except.ok (extract_missing_crates (se ++ '\n' :: so))) := by
  refine ⟨fun b so se => rfl, fun spawn => ?_, fun b so se => rfl⟩
  cases spawn with
  | none => simp [run_dependency_check]
  | some o => simp [run_dependency_check]

/-- Claim C8: the rustc fallback is invoked exactly when the primary
producer fails to launch; the fallback's analysis depends only on the
error stream (not on standard output or the exit status) and feeds exactly
that stream to the matcher; and on the fallback path every install action
stems from the static stage. -/
theorem claim_C8 :
    (∀ env : Env, DriverAction.runRustc ∈ find_missing_crates env ↔ env.cargo_check = none)
    ∧ (∀ b1 b2 so1 so2 se,
        analyze_missing_crates_rustc (some ⟨b1, so1, se⟩)
          = analyze_missing_crates_rustc (some ⟨b2, so2, se⟩)
        ∧ analyze_missing_crates_rustc (some ⟨b1, so1, se⟩)
          = Except.ok (extract_missing_crates se))
    ∧ (∀ (env : Env) (n : String), env.cargo_check = none →
        DriverAction.install n ∈ find_missing_crates env →
        ∃ content, env.source = some content ∧ n ∈ extract_crates_from_source content) := by
  refine ⟨?_, fun b1 b2 so1 so2 se => ⟨rfl, rfl⟩, ?_⟩
  · intro env
    rw [find_missing_crates, List.mem_append]
    constructor
    · intro h
      rcases h with h | h
      · exact absurd h (runRustc_not_stage1 _)
      · exact (runRustc_mem_stage2_iff _).mp h
    · intro h
      right
      rw [h]
      simp [stage2_actions]
  · intro env n hcc hmem
    rw [find_missing_crates, List.mem_append] at hmem
    rcases hmem with h | h
    · cases hsrc : env.source with
      | none =>
        rw [hsrc] at h
        simp [stage1_actions] at h
      | some content =>
        rw [hsrc, stage1_actions] at h
        split at h
        · simp at h
        · exact ⟨content, rfl, install_mem_install_crates.mp h⟩
    · rw [hcc] at h
      simp [stage2_actions, install_crates] at h

/-- Witness for claim C8: with a readable source containing one import and
an unlaunchable primary producer, the installed name "regex" stems from
the static stage. -/
theorem claim_C8_witness :
    ∃ content,
      (Env.mk (some (String.toList "use regex::Regex;\n")) none none).source = some content
      ∧ "regex" ∈ extract_crates_from_source content :=
  claim_C8.2.2 (Env.mk (some (String.toList "use regex::Regex;\n")) none none) "regex"
    rfl (by decide)

/-- Counterexample to claim C9: when the working-directory lookup fails,
getdir's expect panics and the process exits with status 101, not 0 — an
internal failure that is fatal to the process as a whole. -/
theorem claim_C9_cex :
    main_run "linux" none (Env.mk none none none) = (ExitStatus.panicked, [])
    ∧ exit_code (main_run "linux" none (Env.mk none none none)).1 ≠ 0 := by
  constructor
  · rfl
  · decide

/-- Claim C9 (amended): provided the working-directory lookup succeeds, the
process exits with status 0 for every operating system and every
combination of the enumerated internal failures (unreadable source,
unlaunchable subprocesses, non-zero subprocess exits). -/
theorem claim_C9 : ∀ (os : String) (d : String) (env : Env),
    exit_code (main_run os (some d) env).1 = 0 := by
  intro os d env
  rw [main_run]
  split <;> rfl

/-- Counterexample to claim C10: removing the second pattern changes the
matcher's output on a text where rule 1's non-overlapping scan merges two
occurrences that rule 2 still sees separately. -/
theorem claim_C10_cex :
    extract_missing_crates
      (String.toList "use of undeclared crate or module `x failed to resolve: use of undeclared crate or module `foo`")
    ≠ extract_missing_crates_no2
      (String.toList "use of undeclared crate or module `x failed to resolve: use of undeclared crate or module `foo`") := by
  decide

/-- Claim C10 (amended): the subsumption holds pointwise — wherever the
second pattern matches, the first pattern matches 19 characters later with
the same capture and the same remainder — but full-output equality fails
in general because rule 1's non-overlapping scan can consume an occurrence
inside an earlier match. -/
theorem claim_C10 : ∀ (s cap rest : List Char),
    tryMatchAt rule2 s = some (cap, rest) →
    tryMatchAt rule1 (s.drop 19) = some (cap, rest) := by
  intro s cap rest h
  have hpre : rule2.pre = String.toList "failed to resolve: " ++ rule1.pre := by decide
  unfold tryMatchAt at h ⊢
  rw [hpre, stripPfx_append] at h
  cases h19 : stripPfx (String.toList "failed to resolve: ") s with
  | none => rw [h19] at h; exact absurd h (by simp)
  | some s19 =>
    rw [h19] at h
    have hdrop : s.drop 19 = s19 := by
      have hd := stripPfx_drop _ _ _ h19
      have hlen : (String.toList "failed to resolve: ").length = 19 := by decide
      rw [hd, hlen]
    rw [hdrop]
    simp only [Option.some_bind] at h
    exact h

/-- Witness for the amended claim C10: instantiated on a full
"failed to resolve" diagnostic capturing "foo". -/
theorem claim_C10_witness :
    tryMatchAt rule1
      ((String.toList "failed to resolve: use of undeclared crate or module `foo`").drop 19)
      = some (String.toList "foo", []) :=
  claim_C10 _ _ _ (by decide)
